import Mathlib

/-!
# Verification of `code/01_prepare_metadata.py` (aligned_bach_chorales)

Shallow embedding of the metadata-normalization pipeline of the script.
Python strings are modelled as `String` / `List Char`, `pd.NA` / `NaN` as
`none`, and a raised exception as `none` in an `Option`-valued result at
the point where the Python code can raise.  All definitions are
executable.  The model covers ASCII inputs (Python's `int` and `\S`
additionally accept some non-ASCII characters, which never occur in the
script's data).
-/

set_option maxRecDepth 4000

namespace BachChorales

/-! ## Python string primitives -/

/-- The characters stripped by Python `str.strip()` with no argument
(ASCII whitespace). -/
def isPyWs (c : Char) : Bool :=
  c == ' ' || c == '\t' || c == '\n' || c == '\r' || c == '\x0b' || c == '\x0c'

/-- The character set of the literals `'( )'` (in `clean_bwv`) and
`'() '` (in `make_bwv_column`): both denote `{'(', ')', ' '}`. -/
def isParenSpace (c : Char) : Bool := c == '(' || c == ')' || c == ' '

/-- Left part of Python `str.strip(chars)`: drop leading members of the set. -/
def lstripL (p : Char → Bool) (l : List Char) : List Char := l.dropWhile p

/-- Right part of Python `str.strip(chars)`: drop trailing members of the set. -/
def rstripL (p : Char → Bool) (l : List Char) : List Char :=
  (l.reverse.dropWhile p).reverse

/-- Python `str.strip(chars)`: drop members of the set from both ends. -/
def stripL (p : Char → Bool) (l : List Char) : List Char := rstripL p (lstripL p l)

/-- Python `str.split(sep)` for a single separator character (generalised
to a character predicate, which also models `re.split("[.=]", s)`, the
regular-expression split on the class `{'.', '='}` used by
`Series.str.split`).  `"".split(sep) == [""]` and separators at either
end produce empty segments, as in Python. -/
def splitOnP (p : Char → Bool) : List Char → List (List Char)
  | [] => [[]]
  | c :: rest =>
    match splitOnP p rest with
    | [] => [[]]
    | g :: gs => if p c then [] :: g :: gs else (c :: g) :: gs

/-- The separator predicate of `result.split('.')`. -/
def isDot (c : Char) : Bool := c == '.'

/-- The separator predicate of `S.str.split("[.=]")`. -/
def isDotEq (c : Char) : Bool := c == '.' || c == '='

/-- Python `'.'.join(parts)`. -/
def joinDotL : List (List Char) → List Char
  | [] => []
  | [p] => p
  | p :: q :: rest => p ++ '.' :: joinDotL (q :: rest)

/-! ## Python `int()` parsing and `str()` printing -/

/-- Tail of the digit-run grammar of a Python decimal `int` literal:
after a digit `prev`, the rest is digits with single underscores allowed
between digits, and the run must end in a digit. -/
def digitsRunOk : Char → List Char → Bool
  | prev, [] => prev.isDigit
  | prev, c :: rest => (c.isDigit || (c == '_' && prev.isDigit)) && digitsRunOk c rest

/-- A valid (sign-free) digit run of Python `int()`: nonempty, starts and
ends with a decimal digit, single underscores allowed between digits. -/
def digitsOk : List Char → Bool
  | [] => false
  | c :: rest => c.isDigit && digitsRunOk c rest

/-- Numeric value of a digit run (underscores ignored). -/
def digitsVal (l : List Char) : Nat :=
  (l.filter Char.isDigit).foldl (fun a c => 10 * a + (c.toNat - 48)) 0

/-- Python `int(s)` for a decimal string: surrounding whitespace is
ignored, an optional single `+`/`-` sign precedes the digit run.
`none` models the raised `ValueError`. -/
def pyIntL (l : List Char) : Option Int :=
  match stripL isPyWs l with
  | '+' :: rest => if digitsOk rest then some (digitsVal rest : Int) else none
  | '-' :: rest => if digitsOk rest then some (-(digitsVal rest : Int)) else none
  | rest => if digitsOk rest then some (digitsVal rest : Int) else none

/-- `pyIntL` on a `String`. -/
def pyInt (s : String) : Option Int := pyIntL s.data

/-- Fuel-based decimal digit printer (most significant digit first);
`natDigitsCore fuel n acc` prepends the digits of `n` to `acc`, provided
`fuel` is large enough. -/
def natDigitsCore : Nat → Nat → List Char → List Char
  | 0, _, acc => acc
  | fuel + 1, n, acc =>
    if n < 10 then Nat.digitChar (n % 10) :: acc
    else natDigitsCore fuel (n / 10) (Nat.digitChar (n % 10) :: acc)

/-- Decimal digits of a natural number, without leading zeros. -/
def natDigitsL (n : Nat) : List Char := natDigitsCore (n + 1) n []

/-- Python `str(i)` for an `int` value, as a character list. -/
def intReprL (i : Int) : List Char :=
  if i < 0 then '-' :: natDigitsL i.natAbs else natDigitsL i.toNat

/-- Python `str(n)` for a nonnegative `int`, as a `String`. -/
def natRepr (n : Nat) : String := ⟨natDigitsL n⟩

/-- Python `str.zfill(w)`: left-pad with `'0'` up to width `w`, keeping a
leading sign character in front of the padding. -/
def pyZfillL (w : Nat) (l : List Char) : List Char :=
  if w ≤ l.length then l
  else
    match l with
    | '+' :: rest => '+' :: (List.replicate (w - l.length) '0' ++ rest)
    | '-' :: rest => '-' :: (List.replicate (w - l.length) '0' ++ rest)
    | _ => List.replicate (w - l.length) '0' ++ l

/-- `pyZfillL` on a `String`. -/
def pyZfill (w : Nat) (s : String) : String := ⟨pyZfillL w s.data⟩

/-! ## `clean_bwv` (script lines 109-117)

```python
def clean_bwv(bwv_str):
    result = bwv_str.strip('( )')
    split_result = result.split('.')
    if len(split_result) > 1:
        split_result[-1] = str(int(split_result[-1]))
    result = '.'.join(split_result)
    if result == '145a':
        result = '145-a'
    return result
```
-/

/-- The segment list produced by `clean_bwv` before re-joining: strip
`'( )'`, split on `'.'`, and when there is more than one segment replace
the last one by `str(int(last))`.  `none` models the `ValueError` raised
by `int` (the split list is never empty, so the `getLast? = none` branch
is unreachable). -/
def cleanBwvParts (a : List Char) : Option (List (List Char)) :=
  if 1 < (splitOnP isDot (stripL isParenSpace a)).length then
    match (splitOnP isDot (stripL isParenSpace a)).getLast? with
    | none => none
    | some lastP =>
      (pyIntL lastP).map (fun n => (splitOnP isDot (stripL isParenSpace a)).dropLast ++ [intReprL n])
  else some (splitOnP isDot (stripL isParenSpace a))

/-- `clean_bwv` on a character list: join the segments with `'.'` and
apply the single literal override `"145a" ↦ "145-a"`. -/
def cleanBwvL (a : List Char) : Option (List Char) :=
  (cleanBwvParts a).map (fun ps =>
    if joinDotL ps = ("145a").data then ("145-a").data else joinDotL ps)

/-- `clean_bwv` on a `String`; `none` models a raised exception. -/
def clean_bwv (s : String) : Option String := (cleanBwvL s.data).map String.mk

/-- The strip step of `clean_bwv` (`bwv_str.strip('( )')`) on a `String`. -/
def pyStripParen (s : String) : String := ⟨stripL isParenSpace s.data⟩

/-- Python `s.split('.')` on a `String`. -/
def pySplitDot (s : String) : List String := (splitOnP isDot s.data).map String.mk

/-! ## `make_bwv_column` (script lines 119-124)

```python
def make_bwv_column(S):
    S = S.fillna('').str.strip('() ')
    S = S.str.split("=")
    S = S.map(lambda l: [E for elem in l if (E := elem.strip())])
    S = S.map(lambda l: clean_bwv(l[0]) if l else pd.NA)
    return S.rename('bwv')
```
-/

/-- The `'='`-alternates of an (already cell-stripped) string: split on
`'='`, whitespace-strip each piece, and drop the pieces that become
empty (the walrus-filter comprehension). -/
def bwvAlternatesL (l : List Char) : List (List Char) :=
  ((splitOnP (fun c => c == '=') l).map (stripL isPyWs)).filter (fun x => !x.isEmpty)

/-- One cell of `make_bwv_column`: `fillna('')`, strip `'() '`, take the
first remaining `'='`-alternate and clean it; no remaining alternate
gives `pd.NA` (the inner `none`).  The outer `none` models an exception
raised inside `clean_bwv`. -/
def makeBwvCellL (cell : Option (List Char)) : Option (Option (List Char)) :=
  match bwvAlternatesL (stripL isParenSpace (cell.getD [])) with
  | [] => some none
  | a :: _ => (cleanBwvL a).map some

/-- `makeBwvCellL` on `String` cells. -/
def make_bwv_cell (cell : Option String) : Option (Option String) :=
  (makeBwvCellL (cell.map String.data)).map (Option.map String.mk)

/-- `pandas.Series.map` with exception propagation: the whole column
computation fails as soon as one cell raises. -/
def optionMapList (f : α → Option γ) : List α → Option (List γ)
  | [] => some []
  | a :: l =>
    match f a, optionMapList f l with
    | some b, some bs => some (b :: bs)
    | _, _ => none

/-- `make_bwv_column` over a whole column. -/
def make_bwv_column (col : List (Option String)) : Option (List (Option String)) :=
  optionMapList make_bwv_cell col

/-! ## `make_integer_column` (script lines 126-127)

```python
def make_integer_column(S):
    return S.str.split("[.=]").map(lambda l: int(l[0])).astype("Int64")
```

`.str.split` leaves a missing cell as `NaN`, and the subsequent
`.map(lambda l: int(l[0]))` is applied to that `NaN` as well, where
`l[0]` raises `TypeError`; hence a missing cell makes the column raise
(`none`).  `astype("Int64")` is modelled as the identity on values
(faithful for the magnitudes occurring here, below `2^63`). -/

/-- One cell of `make_integer_column`; the split list is never empty, so
`headD []` is its first element. -/
def makeIntegerCellL (cell : Option (List Char)) : Option Int :=
  match cell with
  | none => none
  | some l => pyIntL ((splitOnP isDotEq l).headD [])

/-- `makeIntegerCellL` on `String` cells. -/
def make_integer_cell (cell : Option String) : Option Int :=
  makeIntegerCellL (cell.map String.data)

/-- `make_integer_column` over a whole column. -/
def make_integer_column (col : List (Option String)) : Option (List Int) :=
  optionMapList make_integer_cell col

/-! ## Specification-worded variants

For each contract of the specification a second definition follows the
spec's words; the claim theorems compare it with the definition
translated from the code. -/

/-- The strip set named by the spec for `clean_bwv`: surrounding
parentheses and whitespace (the space character, the only whitespace the
script's strip sets contain). -/
def specStripSet (c : Char) : Bool := c == '(' || c == ')' || c == ' '

/-- `clean_bwv` as worded by the spec: strip surrounding parentheses and
whitespace; when splitting on `'.'` yields more than one segment,
reinterpret the final segment as a plain integer (dropping leading
zeros) and rejoin with `'.'`; finally apply the single literal override
`"145a" ↦ "145-a"`. -/
def specCleanBwvParts (l : List Char) : Option (List (List Char)) :=
  if 1 < (splitOnP (fun c => c == '.') (stripL specStripSet l)).length then
    match (splitOnP (fun c => c == '.') (stripL specStripSet l)).reverse with
    | [] => none
    | lastP :: revInit => (pyIntL lastP).map (fun n => (intReprL n :: revInit).reverse)
  else some (splitOnP (fun c => c == '.') (stripL specStripSet l))

/-- Joining and override step of the spec-worded `clean_bwv`. -/
def specCleanBwvL (l : List Char) : Option (List Char) :=
  (specCleanBwvParts l).map (fun ps =>
    if joinDotL ps = ("145a").data then ("145-a").data else joinDotL ps)

/-- `specCleanBwvL` on a `String`. -/
def spec_clean_bwv (s : String) : Option String := (specCleanBwvL s.data).map String.mk

/-- One cell of `make_bwv_column` exactly as worded by the claim: split
the cell on `'='`, drop the empty and whitespace-only segments, keep
only the first remaining segment, apply the `clean_bwv` cleaning rule;
a cell all of whose segments are empty yields an absent value.  (No
preliminary strip of the whole cell.) -/
def claimBwvCellL (l : List Char) : Option (Option (List Char)) :=
  match ((splitOnP (fun c => c == '=') l).map (stripL isPyWs)).filter (fun x => !x.isEmpty) with
  | [] => some none
  | a :: _ => (cleanBwvL a).map some

/-- `claimBwvCellL` on a `String` cell. -/
def claim_bwv_cell (s : String) : Option (Option String) :=
  (claimBwvCellL s.data).map (Option.map String.mk)

/-- One cell of `make_bwv_column` as amended: first replace a missing
cell by the empty string and strip the characters `'('`, `')'`, `' '`
from both ends of the cell, then split on `'='`, whitespace-strip each
segment and drop the segments that become empty, keep the first
remaining segment and apply the `clean_bwv` cleaning rule to it; a cell
with no remaining segment yields an absent value. -/
def amendedBwvCellL (cell : Option (List Char)) : Option (Option (List Char)) :=
  let s := stripL specStripSet (cell.getD [])
  match ((splitOnP (fun c => c == '=') s).map (stripL isPyWs)).filter (fun x => !x.isEmpty) with
  | [] => some none
  | a :: _ => (cleanBwvL a).map some

/-- `amendedBwvCellL` on `String` cells. -/
def amended_bwv_cell (cell : Option String) : Option (Option String) :=
  (amendedBwvCellL (cell.map String.data)).map (Option.map String.mk)

/-- `make_integer_column` on one cell as worded by the spec: split the
cell on `'.'` or `'='` and parse the first resulting segment as an
integer (the first segment of a split is the text before the first
separator). -/
def spec_integer_cell (s : String) : Option Int :=
  pyIntL (s.data.takeWhile (fun c => !isDotEq c))

/-! ## The outer join (`pd.merge`, script lines 135-141)

```python
mapping_table = pd.merge(
    left=riemenschneider, right=wikitable,
    how="outer", on="Riemenschneider",
    suffixes=(None, "_wiki")
).sort_values("389").reset_index(drop=True)
```

The left table is keyed by its (non-null, integer) `Riemenschneider`
index; the right table's `Riemenschneider` column is nullable `Int64`.
A row is modelled as its key plus the tuple of columns exclusive to its
side (`α` on the left, `β` on the right); overlapping columns other than
the key are kept on both sides under the `suffixes` renaming and play no
role in the joined-row count.  `pd.merge(how="outer")` produces, for
each left row, one joined row per matching right row (or one
right-absent row when there is no match), plus one left-absent row for
every right row whose key matches no left row; `NaN` join keys match
nothing here because the left keys are all non-null.  The trailing
`sort_values` / `reset_index` permute rows and are irrelevant to the
per-key row count and absent-value pattern. -/

/-- Joined rows generated by the left table: key, left columns, matching
right columns (absent when no right row matches). -/
def mergeLeft (R : List (Option Int × β)) : List (Int × α) → List (Option Int × Option α × Option β)
  | [] => []
  | (k, a) :: L =>
    (if (R.filter (fun rb => rb.1 = some k)).isEmpty then [(some k, some a, (none : Option β))]
     else (R.filter (fun rb => rb.1 = some k)).map (fun rb => (some k, some a, some rb.2))) ++
      mergeLeft R L

/-- The full outer merge: left-generated rows plus the unmatched right
rows with absent left columns. -/
def mergeOuter (L : List (Int × α)) (R : List (Option Int × β)) :
    List (Option Int × Option α × Option β) :=
  mergeLeft R L ++
    (R.filter (fun rb => L.all (fun la => !(rb.1 == some la.1)))).map
      (fun rb => (rb.1, (none : Option α), some rb.2))

/-- Number of joined rows carrying the integer key `k`. -/
def keyCount (rows : List (Option Int × Option α × Option β)) (k : Int) : Nat :=
  rows.countP (fun r => r.1 = some k)

/-! ## The final column assembly (script lines 145-152) -/

/-- The Riemenschneider index of the assembled table: the integers
1..371 in ascending order (the domain of the reference catalog). -/
def riemIndex : List Nat := List.range' 1 371

/-- `pd.Series([f"chor{str(i).zfill(3)}.krn" if i != 150 else None for i in range(1, 372)], ...)`. -/
def krn_files : List (Option String) :=
  riemIndex.map (fun i =>
    if i ≠ 150 then some (("chor" ++ pyZfill 3 (natRepr i)) ++ ".krn") else none)

/-- `pd.Series([f"{str(i).zfill(3)}/short_score.mxl" for i in range(1, 372)], ...)`. -/
def xml_files : List String :=
  riemIndex.map (fun i => pyZfill 3 (natRepr i) ++ "/short_score.mxl")

/-- Label lookup in a `pd.Series` built from positional values and an
index list: the value paired with the first occurrence of the label. -/
def seriesAt (idx : List Nat) (vals : List α) (i : Nat) : Option α :=
  match idx, vals with
  | [], _ => none
  | _, [] => none
  | j :: idxs, v :: vs => if i = j then some v else seriesAt idxs vs i

/-! ## `get_table` and the pipeline prefix (script lines 43-63, C7)

`pd.read_html(html, attrs=dict(id="sortable"))` raises `ValueError`
("No tables found") when no table in the markup carries the requested
`id` attribute; otherwise it returns the list of matching tables, and
`[n]` raises `IndexError` when out of range.  The script's first output
file is written only after `get_table` has returned (line 78 vs line
63). -/

/-- An HTML table: rows of optional cells (placeholder tokens already
replaced by missing markers). -/
def HtmlTable := List (List (Option String))

/-- Errors that abort the pipeline. -/
inductive PipelineError where
  | noTablesFound
  | indexError

/-- The tables of the markup whose `id` attribute equals the structural
selector; the markup is modelled as a list of (id, table) pairs. -/
def matchingTables (html : List (String × HtmlTable)) (idAttr : String) : List HtmlTable :=
  (html.filter (fun t => t.1 == idAttr)).map Prod.snd

/-- `pd.read_html(html, attrs=dict(id=idAttr))`. -/
def read_html (html : List (String × HtmlTable)) (idAttr : String) :
    Except PipelineError (List HtmlTable) :=
  match matchingTables html idAttr with
  | [] => Except.error PipelineError.noTablesFound
  | t :: ts => Except.ok (t :: ts)

/-- `get_table`: `pd.read_html(html, na_values=..., attrs=...)[n]`. -/
def get_table (html : List (String × HtmlTable)) (idAttr : String) (n : Nat) :
    Except PipelineError HtmlTable :=
  match read_html html idAttr with
  | Except.error e => Except.error e
  | Except.ok ts =>
    match ts.get? n with
    | some t => Except.ok t
    | none => Except.error PipelineError.indexError

/-- The output files of a full run, in the order the script writes
them; the first one is written only after `bct` has been loaded. -/
def outputFiles : List String :=
  ["krn_metadata_dtypes.csv", "krn_metadata.csv", "mapping_table.csv", "riemenschneider.csv"]

/-- The script's top level up to the first output: load `bct` via
`get_table` with selector `id="sortable"`, then run the remaining
stages (`rest` returns the files they write).  The result pairs the
written files with the error, if any, that aborted the run. -/
def runScript (html : List (String × HtmlTable)) (rest : HtmlTable → List String) :
    List String × Option PipelineError :=
  match get_table html ("sortable") 0 with
  | Except.error e => ([], some e)
  | Except.ok bct => (rest bct, none)

/-! ## The description-field extraction (script lines 73-76, C8)

```python
info_regex = r"<link>(?P<title>.*?)<\/link>(?:, <small>(?:BWV )?(?P<bwv1>\d+)\/?(?P<bwv2>\d+)?.*?<\/small>)? *(?:\((?P<mode>\S+?)\))?"
expanded_description = krn_table.description.map(html.unescape).str.extract(info_regex)
```

The matcher below implements this fixed pattern group by group.  After
`<link>`, the lazy `.*?` runs to the first following `</link>` (`.`
does not cross a newline); since everything after `</link>` is
optional, no backtracking into the title can occur.  Each optional
group that fails to match leaves its fields absent and the position
unchanged. -/

/-- One extracted row: (title, bwv1, bwv2, mode). -/
def InfoRow := Option String × Option String × Option String × Option String

/-- Lazy `.*?stop` (no DOTALL): the shortest prefix not containing a
newline that is followed by the literal `stop`; returns the consumed
prefix and the rest after `stop`. -/
def scanUntil (stop : List Char) : List Char → List Char → Option (List Char × List Char)
  | acc, [] => if stop = [] then some (acc.reverse, []) else none
  | acc, c :: rest =>
    if stop.isPrefixOf (c :: rest) then some (acc.reverse, (c :: rest).drop stop.length)
    else if c == '\n' then none
    else scanUntil stop (c :: acc) rest

/-- The optional group `(?:, <small>(?:BWV )?(?P<bwv1>\d+)\/?(?P<bwv2>\d+)?.*?<\/small>)?`:
returns the two captures and the rest of the input (unchanged when the
group does not match). -/
def parseSmall (l : List Char) : (Option (List Char) × Option (List Char)) × List Char :=
  if (", <small>").data.isPrefixOf l then
    let r2 := l.drop (", <small>").data.length
    let r2b := if ("BWV ").data.isPrefixOf r2 then r2.drop (("BWV ").data.length) else r2
    let d1 := r2b.takeWhile Char.isDigit
    if d1.isEmpty then ((none, none), l)
    else
      let r3 := r2b.dropWhile Char.isDigit
      let r3b := match r3 with
        | '/' :: t => t
        | _ => r3
      let d2 := r3b.takeWhile Char.isDigit
      let r4 := r3b.dropWhile Char.isDigit
      match scanUntil (("</small>").data) [] r4 with
      | some (_, r5) => ((some d1, if d2.isEmpty then none else some d2), r5)
      | none => ((none, none), l)
  else ((none, none), l)

/-- Attempt to match the whole pattern at the current position. -/
def matchInfoAt (l : List Char) : Option InfoRow :=
  if ("<link>").data.isPrefixOf l then
    match scanUntil (("</link>").data) [] (l.drop (("<link>").data.length)) with
    | none => none
    | some (title, r2) =>
      let br := parseSmall r2
      let r4 := br.2.dropWhile (fun c => c == ' ')
      let mode : Option (List Char) :=
        match r4 with
        | '(' :: restM =>
          let t := restM.takeWhile (fun c => !(c == ')') && !isPyWs c)
          if t.isEmpty then none
          else
            match restM.drop t.length with
            | ')' :: _ => some t
            | _ => none
        | _ => none
      some (some (String.mk title), (br.1).1.map String.mk, (br.1).2.map String.mk,
            mode.map String.mk)
  else none

/-- `re.search`: the match at the leftmost position where the pattern
matches, `none` when no position matches. -/
def searchInfo : List Char → Option InfoRow
  | [] => none
  | c :: rest =>
    match matchInfoAt (c :: rest) with
    | some r => some r
    | none => searchInfo rest

/-- `str.extract(info_regex)` on one cell: a missing cell and a
non-matching cell both give the all-absent row; a match gives each
unmatched optional group an absent field.  The function is total: no
cell makes it raise. -/
def extract_info_cell (cell : Option String) : InfoRow :=
  match cell with
  | none => (none, none, none, none)
  | some s => (searchInfo s.data).getD (none, none, none, none)

/-- `str.extract(info_regex)` over the description column. -/
def extract_info_column (col : List (Option String)) : List InfoRow :=
  col.map extract_info_cell

/-! ## The `CPE` column (script lines 130-133, C10)

```python
riemenschneider = bct[bct.R.notna()].copy()
riemenschneider["Riemenschneider"] = make_integer_column(riemenschneider.R)
riemenschneider = riemenschneider.set_index("Riemenschneider").sort_index()
riemenschneider.insert(3, "CPE", make_integer_column(riemenschneider.B))
```

Only the `R` and `B` columns of `bct` are involved; a row is modelled
as the pair (R cell, B cell). -/

/-- The rows kept by the `bct.R.notna()` filter. -/
def keptRows (t : List (Option String × Option String)) : List (Option String × Option String) :=
  t.filter (fun r => r.1.isSome)

/-- The `CPE` column: `make_integer_column` applied to column `B` of the
kept rows (`none` when the computation raises). -/
def cpeColumn (t : List (Option String × Option String)) : Option (List Int) :=
  make_integer_column ((keptRows t).map (fun r => r.2))

/-! ## Helper lemmas about the string primitives -/

theorem splitOnP_ne_nil (p : Char → Bool) : ∀ l : List Char, splitOnP p l ≠ []
  | [] => by simp [splitOnP]
  | c :: rest => by
    rcases h : splitOnP p rest with _ | ⟨g, gs⟩
    · simp [splitOnP, h]
    · by_cases hc : p c <;> simp [splitOnP, h, hc]

theorem splitOnP_cons_of_eq (p : Char → Bool) (c : Char) (l : List Char)
    (g : List Char) (gs : List (List Char)) (h : splitOnP p l = g :: gs) :
    splitOnP p (c :: l) = if p c then [] :: g :: gs else (c :: g) :: gs := by
  simp [splitOnP, h]

theorem splitOnP_single (p : Char → Bool) : ∀ l x, splitOnP p l = [x] → x = l
  | [], x, h => by
    simp [splitOnP] at h
    exact h
  | c :: rest, x, h => by
    rcases hr : splitOnP p rest with _ | ⟨g, gs⟩
    · exact absurd hr (splitOnP_ne_nil p rest)
    · rw [splitOnP_cons_of_eq p c rest g gs hr] at h
      by_cases hc : p c
      · rw [if_pos hc] at h
        simp at h
      · rw [if_neg hc] at h
        have hx : x = c :: g := (List.head_eq_of_cons_eq h).symm
        have hgs : gs = [] := by
          have := congrArg List.length h
          simp at this
          simpa using this
        subst hgs
        have := splitOnP_single p rest g hr
        subst this
        exact hx

theorem splitOnP_sep_false (p : Char → Bool) :
    ∀ l x, x ∈ splitOnP p l → ∀ c ∈ x, p c = false
  | [], x, hx, c, hc => by
    simp [splitOnP] at hx
    subst hx
    simp at hc
  | a :: rest, x, hx, c, hc => by
    rcases hr : splitOnP p rest with _ | ⟨g, gs⟩
    · exact absurd hr (splitOnP_ne_nil p rest)
    · rw [splitOnP_cons_of_eq p a rest g gs hr] at hx
      by_cases ha : p a
      · rw [if_pos ha] at hx
        rcases List.mem_cons.mp hx with hx | hx
        · subst hx; simp at hc
        · exact splitOnP_sep_false p rest x (by rw [hr]; exact hx) c hc
      · rw [if_neg ha] at hx
        rcases List.mem_cons.mp hx with hx | hx
        · subst hx
          rcases List.mem_cons.mp hc with hc | hc
          · subst hc; simpa using ha
          · exact splitOnP_sep_false p rest g
              (by rw [hr]; exact List.mem_cons_self g gs) c hc
        · exact splitOnP_sep_false p rest x
            (by rw [hr]; exact List.mem_cons_of_mem g hx) c hc

theorem splitOnP_subset (p : Char → Bool) :
    ∀ l x, x ∈ splitOnP p l → ∀ c ∈ x, c ∈ l
  | [], x, hx, c, hc => by
    simp [splitOnP] at hx
    subst hx
    simp at hc
  | a :: rest, x, hx, c, hc => by
    rcases hr : splitOnP p rest with _ | ⟨g, gs⟩
    · exact absurd hr (splitOnP_ne_nil p rest)
    · rw [splitOnP_cons_of_eq p a rest g gs hr] at hx
      by_cases ha : p a
      · rw [if_pos ha] at hx
        rcases List.mem_cons.mp hx with hx | hx
        · subst hx; simp at hc
        · exact List.mem_cons_of_mem a
            (splitOnP_subset p rest x (by rw [hr]; exact hx) c hc)
      · rw [if_neg ha] at hx
        rcases List.mem_cons.mp hx with hx | hx
        · subst hx
          rcases List.mem_cons.mp hc with hc | hc
          · subst hc; exact List.mem_cons_self c rest
          · exact List.mem_cons_of_mem a
              (splitOnP_subset p rest g
                (by rw [hr]; exact List.mem_cons_self g gs) c hc)
        · exact List.mem_cons_of_mem a
            (splitOnP_subset p rest x
              (by rw [hr]; exact List.mem_cons_of_mem g hx) c hc)

theorem splitOnP_headD (p : Char → Bool) :
    ∀ l, (splitOnP p l).headD [] = l.takeWhile (fun c => !p c)
  | [] => by simp [splitOnP]
  | c :: rest => by
    rcases hr : splitOnP p rest with _ | ⟨g, gs⟩
    · exact absurd hr (splitOnP_ne_nil p rest)
    · rw [splitOnP_cons_of_eq p c rest g gs hr]
      by_cases hc : p c
      · simp [hc, List.takeWhile_cons]
      · have ih := splitOnP_headD p rest
        rw [hr] at ih
        simp only [List.headD] at ih
        simp [hc, List.takeWhile_cons, ih]

theorem splitOnP_no_sep (p : Char → Bool) :
    ∀ l, (∀ c ∈ l, p c = false) → splitOnP p l = [l]
  | [], _ => by simp [splitOnP]
  | c :: rest, h => by
    have hr : splitOnP p rest = [rest] :=
      splitOnP_no_sep p rest (fun d hd => h d (List.mem_cons_of_mem c hd))
    have hc : p c = false := h c (List.mem_cons_self c rest)
    rw [splitOnP_cons_of_eq p c rest rest [] hr, if_neg (by simp [hc])]

theorem splitOnP_append_sep (p : Char → Bool) (s : Char) (hs : p s = true) :
    ∀ a b, (∀ c ∈ a, p c = false) → splitOnP p (a ++ s :: b) = a :: splitOnP p b
  | [], b, _ => by
    rcases hb : splitOnP p b with _ | ⟨g, gs⟩
    · exact absurd hb (splitOnP_ne_nil p b)
    · simp only [List.nil_append]
      rw [splitOnP_cons_of_eq p s b g gs hb, if_pos hs]
  | c :: a, b, h => by
    have ih := splitOnP_append_sep p s hs a b (fun d hd => h d (List.mem_cons_of_mem c hd))
    have hc : p c = false := h c (List.mem_cons_self c a)
    rcases hb : splitOnP p b with _ | ⟨g, gs⟩
    · exact absurd hb (splitOnP_ne_nil p b)
    · rw [hb] at ih
      rw [List.cons_append, splitOnP_cons_of_eq p c (a ++ s :: b) a (g :: gs) ih,
        if_neg (by simp [hc])]

theorem joinDotL_join_split :
    ∀ ps, ps ≠ [] → (∀ x ∈ ps, ∀ c ∈ x, isDot c = false) →
      splitOnP isDot (joinDotL ps) = ps
  | [], h, _ => absurd rfl h
  | [x], _, hx => by
    simpa [joinDotL] using splitOnP_no_sep isDot x (hx x (List.mem_cons_self x []))
  | x :: y :: rest, _, hx => by
    have ih := joinDotL_join_split (y :: rest) (by simp)
      (fun z hz c hc => hx z (List.mem_cons_of_mem x hz) c hc)
    have hfree : ∀ c ∈ x, isDot c = false := hx x (List.mem_cons_self x (y :: rest))
    calc splitOnP isDot (joinDotL (x :: y :: rest))
        = splitOnP isDot (x ++ '.' :: joinDotL (y :: rest)) := by simp [joinDotL]
      _ = x :: splitOnP isDot (joinDotL (y :: rest)) :=
          splitOnP_append_sep isDot '.' (by decide) x _ hfree
      _ = x :: y :: rest := by rw [ih]

theorem joinDotL_mem :
    ∀ ps (c : Char), c ∈ joinDotL ps → c = '.' ∨ ∃ x ∈ ps, c ∈ x
  | [], c, hc => by simp [joinDotL] at hc
  | [x], c, hc => by
    right
    exact ⟨x, List.mem_cons_self x [], by simpa [joinDotL] using hc⟩
  | x :: y :: rest, c, hc => by
    simp only [joinDotL, List.mem_append, List.mem_cons] at hc
    rcases hc with hc | hc | hc
    · exact Or.inr ⟨x, List.mem_cons_self x (y :: rest), hc⟩
    · exact Or.inl hc
    · rcases joinDotL_mem (y :: rest) c hc with h | ⟨z, hz, hcz⟩
      · exact Or.inl h
      · exact Or.inr ⟨z, List.mem_cons_of_mem x hz, hcz⟩

theorem joinDotL_getLast? :
    ∀ ps (q : List Char), q ≠ [] → (joinDotL (ps ++ [q])).getLast? = q.getLast?
  | [], q, _ => by simp [joinDotL]
  | p :: ps, q, hq => by
    have ih := joinDotL_getLast? ps q hq
    rcases hql : q.getLast? with _ | c
    · exact absurd (List.getLast?_eq_none_iff.mp hql) hq
    rw [hql] at ih
    rcases hpq : ps ++ [q] with _ | ⟨y, ys⟩
    · simp at hpq
    have hjoin : joinDotL ((p :: ps) ++ [q]) = p ++ '.' :: joinDotL (y :: ys) := by
      rw [List.cons_append, hpq]
      rfl
    rw [hpq] at ih
    rw [hjoin, List.getLast?_append,
      show ('.' :: joinDotL (y :: ys)) = ['.'] ++ joinDotL (y :: ys) from rfl,
      List.getLast?_append, ih]
    simp

theorem getLast?_mem' (l : List Char) : ∀ (c : Char), l.getLast? = some c → c ∈ l := by
  induction l with
  | nil => intro c h; simp at h
  | cons a t ih =>
    intro c h
    cases t with
    | nil =>
      simp at h
      simp [h]
    | cons b u =>
      rw [List.getLast?_cons_cons] at h
      exact List.mem_cons_of_mem a (ih c h)

theorem dropWhile_head?_false (p : Char → Bool) :
    ∀ (l : List Char) (c : Char), (l.dropWhile p).head? = some c → p c = false
  | [], c, h => by simp at h
  | a :: rest, c, h => by
    by_cases ha : p a
    · rw [List.dropWhile_cons, if_pos ha] at h
      exact dropWhile_head?_false p rest c h
    · rw [List.dropWhile_cons, if_neg ha] at h
      simp at h
      subst h
      simpa using ha

theorem stripL_head?_false (p : Char → Bool) (l : List Char) (c : Char)
    (h : (stripL p l).head? = some c) : p c = false := by
  unfold stripL rstripL at h
  set m := lstripL p l with hm
  set d := m.reverse.dropWhile p with hd
  rw [List.head?_reverse] at h
  have hdne : d ≠ [] := by
    intro hnil
    rw [hnil] at h
    simp at h
  obtain ⟨t, ht⟩ := (List.dropWhile_suffix p : d <:+ m.reverse)
  have hlast : m.reverse.getLast? = some c := by
    rw [← ht, List.getLast?_append, h]
    simp
  rw [List.getLast?_reverse] at hlast
  exact dropWhile_head?_false p l c hlast

theorem stripL_getLast?_false (p : Char → Bool) (l : List Char) (c : Char)
    (h : (stripL p l).getLast? = some c) : p c = false := by
  unfold stripL rstripL at h
  rw [List.getLast?_reverse] at h
  exact dropWhile_head?_false p _ c h

theorem stripL_subset (p : Char → Bool) (l : List Char) (c : Char)
    (h : c ∈ stripL p l) : c ∈ l := by
  unfold stripL rstripL lstripL at h
  rw [List.mem_reverse] at h
  have h1 := (List.dropWhile_sublist p).subset h
  rw [List.mem_reverse] at h1
  exact (List.dropWhile_sublist p).subset h1

theorem takeWhile_head? (q : Char → Bool) :
    ∀ (l : List Char) (c : Char), (l.takeWhile q).head? = some c → l.head? = some c
  | [], c, h => by simp at h
  | a :: rest, c, h => by
    by_cases ha : q a
    · rw [List.takeWhile_cons, if_pos ha] at h
      simpa using h
    · rw [List.takeWhile_cons, if_neg ha] at h
      simp at h

/-! ## Helper lemmas about digit printing -/

theorem natDigitsCore_ne_nil :
    ∀ fuel n (acc : List Char), acc ≠ [] → natDigitsCore fuel n acc ≠ []
  | 0, _, _, h => h
  | fuel + 1, n, acc, h => by
    by_cases hn : n < 10
    · simp [natDigitsCore, hn]
    · simp only [natDigitsCore, if_neg hn]
      exact natDigitsCore_ne_nil fuel (n / 10) _ (by simp)

theorem natDigitsL_ne_nil (n : Nat) : natDigitsL n ≠ [] := by
  unfold natDigitsL natDigitsCore
  by_cases hn : n < 10
  · simp [hn]
  · simp only [if_neg hn]
    exact natDigitsCore_ne_nil n (n / 10) _ (by simp)

theorem natDigitsCore_digits :
    ∀ fuel n (acc : List Char), (∀ c ∈ acc, c.isDigit = true) →
      ∀ c ∈ natDigitsCore fuel n acc, c.isDigit = true
  | 0, _, acc, hacc => hacc
  | fuel + 1, n, acc, hacc => by
    have hdig : (Nat.digitChar (n % 10)).isDigit = true := by
      have h10 : n % 10 < 10 := Nat.mod_lt _ (by omega)
      set k := n % 10 with hk
      interval_cases k <;> decide
    have hacc' : ∀ c ∈ Nat.digitChar (n % 10) :: acc, c.isDigit = true := by
      intro c hc
      rcases List.mem_cons.mp hc with hc | hc
      · subst hc; exact hdig
      · exact hacc c hc
    by_cases hn : n < 10
    · simp only [natDigitsCore, if_pos hn]
      exact hacc'
    · simp only [natDigitsCore, if_neg hn]
      exact natDigitsCore_digits fuel (n / 10) _ hacc'

theorem natDigitsCore_head :
    ∀ fuel n (acc : List Char), 0 < n → n ≤ fuel →
      ∃ c t, natDigitsCore fuel n acc = c :: t ∧ c ≠ '0'
  | 0, n, _, hn, hfuel => absurd hfuel (by omega)
  | fuel + 1, n, acc, hn, hfuel => by
    by_cases h10 : n < 10
    · refine ⟨Nat.digitChar (n % 10), acc, by simp [natDigitsCore, h10], ?_⟩
      have : n % 10 = n := Nat.mod_eq_of_lt h10
      rw [this]
      interval_cases n <;> decide
    · simp only [natDigitsCore, if_neg h10]
      exact natDigitsCore_head fuel (n / 10) _ (by omega) (by omega)

theorem intReprL_ne_nil (i : Int) : intReprL i ≠ [] := by
  unfold intReprL
  by_cases h : i < 0
  · simp [h]
  · simp only [if_neg h]
    exact natDigitsL_ne_nil _

theorem intReprL_chars (i : Int) (c : Char) (h : c ∈ intReprL i) :
    c = '-' ∨ c.isDigit = true := by
  unfold intReprL at h
  by_cases hi : i < 0
  · rw [if_pos hi] at h
    rcases List.mem_cons.mp h with hc | h
    · exact Or.inl hc
    · exact Or.inr (natDigitsCore_digits _ _ [] (by simp) c h)
  · rw [if_neg hi] at h
    exact Or.inr (natDigitsCore_digits _ _ [] (by simp) c h)

theorem intReprL_zero_head (i : Int) (t : List Char) (h : intReprL i = '0' :: t) :
    t = [] := by
  unfold intReprL at h
  by_cases hi : i < 0
  · rw [if_pos hi] at h
    simp at h
  · rw [if_neg hi] at h
    by_cases hz : i.toNat = 0
    · rw [hz] at h
      have h0 : natDigitsL 0 = ['0'] := by decide
      rw [h0] at h
      exact (List.tail_eq_of_cons_eq h).symm
    · obtain ⟨c, t', hc, hc0⟩ := natDigitsCore_head (i.toNat + 1) i.toNat []
        (by omega) (by omega)
      rw [natDigitsL, hc] at h
      exact absurd (List.head_eq_of_cons_eq h) hc0

/-! ## Helper lemmas about the outer merge -/

theorem mergeLeft_cons (R : List (Option Int × β)) (k' : Int) (a : α) (L : List (Int × α)) :
    mergeLeft R ((k', a) :: L) =
      (if (R.filter (fun rb => rb.1 = some k')).isEmpty then [(some k', some a, (none : Option β))]
       else (R.filter (fun rb => rb.1 = some k')).map (fun rb => (some k', some a, some rb.2))) ++
        mergeLeft R L := rfl

theorem count_filterMap_fst (k : Int) :
    ∀ R : List (Option Int × β),
      (R.filterMap Prod.fst).count k = R.countP (fun rb => rb.1 = some k)
  | [] => rfl
  | rb :: R => by
    have ih := count_filterMap_fst k R
    rcases hrb : rb.1 with _ | x
    · simp only [List.filterMap_cons, hrb, List.countP_cons, ih]
      simp [hrb]
    · simp only [List.filterMap_cons, hrb, List.count_cons, List.countP_cons, ih]
      by_cases hx : x = k
      · simp [hrb, hx]
      · simp [hrb, hx]

theorem countP_key_le_one (R : List (Option Int × β))
    (hR : (R.filterMap Prod.fst).Nodup) (k : Int) :
    R.countP (fun rb => rb.1 = some k) ≤ 1 := by
  rw [← count_filterMap_fst]
  exact List.nodup_iff_count_le_one.mp hR k

theorem countP_key_pos (R : List (Option Int × β)) (k : Int)
    (hk : some k ∈ R.map Prod.fst) : 0 < R.countP (fun rb => rb.1 = some k) := by
  rw [← count_filterMap_fst, Nat.pos_iff_ne_zero]
  intro h0
  obtain ⟨rb, hrb, hrbk⟩ := List.mem_map.mp hk
  rw [List.count_eq_zero] at h0
  exact h0 (List.mem_filterMap.mpr ⟨rb, hrb, hrbk⟩)

theorem keyCount_mergeLeft (R : List (Option Int × β))
    (hR : ∀ j : Int, R.countP (fun rb => rb.1 = some j) ≤ 1) (k : Int) :
    ∀ L : List (Int × α),
      (mergeLeft R L).countP (fun r => r.1 = some k) = (L.map Prod.fst).count k
  | [] => rfl
  | (k', a) :: L => by
    have ih := keyCount_mergeLeft R hR k L
    rw [mergeLeft_cons, List.countP_append, ih, List.map_cons, List.count_cons]
    rcases hms : R.filter (fun rb => rb.1 = some k') with _ | ⟨m, ms⟩
    · rw [hms]
      simp only [List.isEmpty_nil, if_true, List.countP_cons, List.countP_nil]
      by_cases hk : k' = k
      · subst hk
        simp [Nat.add_comm]
      · simp [hk, Ne.symm hk]
    · rw [hms]
      have hlen : (m :: ms).length = 1 := by
        have h1 := hR k'
        rw [List.countP_eq_length_filter, hms] at h1
        have h2 : 0 < (m :: ms).length := by simp
        omega
      simp only [List.isEmpty_cons, Bool.false_eq_true, if_false]
      rw [List.countP_map]
      by_cases hk : k' = k
      · subst hk
        have hcomp : List.countP
            ((fun (r : Option Int × Option α × Option β) => decide (r.1 = some k')) ∘
              (fun rb : Option Int × β => ((some k' : Option Int), some a, some rb.2)))
            (m :: ms) = (m :: ms).length := by
          simp [Function.comp]
        rw [hcomp, hlen]
        simp [Nat.add_comm]
      · have hcomp : List.countP
            ((fun (r : Option Int × Option α × Option β) => decide (r.1 = some k)) ∘
              (fun rb : Option Int × β => ((some k' : Option Int), some a, some rb.2)))
            (m :: ms) = 0 := by
          simp [Function.comp, hk]
        rw [hcomp]
        simp [hk, Ne.symm hk]

theorem keyCount_unmatched (L : List (Int × α)) (R : List (Option Int × β)) (k : Int) :
    ((R.filter (fun rb => L.all (fun la => !(rb.1 == some la.1)))).map
      (fun rb => (rb.1, (none : Option α), some rb.2))).countP (fun r => r.1 = some k)
    = if k ∈ L.map Prod.fst then 0 else R.countP (fun rb => rb.1 = some k) := by
  rw [List.countP_map, List.countP_filter]
  by_cases hk : k ∈ L.map Prod.fst
  · rw [if_pos hk]
    apply List.countP_eq_zero.mpr
    intro rb _ hrb
    obtain ⟨la, hla, hlak⟩ := List.mem_map.mp hk
    simp only [Function.comp, Bool.and_eq_true, decide_eq_true_eq, List.all_eq_true] at hrb
    have := hrb.2 la hla
    rw [hrb.1, hlak] at this
    simp at this
  · rw [if_neg hk]
    apply List.countP_congr
    intro rb _
    simp only [Function.comp, Bool.and_eq_true, decide_eq_true_eq, List.all_eq_true]
    constructor
    · intro h
      exact h.1
    · intro h
      refine ⟨h, fun la hla => ?_⟩
      rw [h]
      simp only [Bool.not_eq_eq_eq_not, Bool.not_true, beq_eq_false_iff_ne, ne_eq,
        Option.some.injEq]
      intro hkla
      exact hk (List.mem_map.mpr ⟨la, hla, hkla.symm⟩)

theorem mem_mergeLeft (R : List (Option Int × β)) :
    ∀ (L : List (Int × α)) row, row ∈ mergeLeft R L →
      ∃ ka ∈ L, row.1 = some ka.1 ∧ row.2.1 = some ka.2 ∧
        (row.2.2 = none ∨ ∃ rb ∈ R, rb.1 = some ka.1 ∧ row.2.2 = some rb.2)
  | [], row, h => by simp [mergeLeft] at h
  | (k', a) :: L, row, h => by
    rw [mergeLeft_cons, List.mem_append] at h
    rcases h with h' | h'
    · rcases hms : R.filter (fun rb => rb.1 = some k') with _ | ⟨m, ms⟩
      · rw [hms] at h'
        simp only [List.isEmpty_nil, if_true, List.mem_singleton] at h'
        subst h'
        exact ⟨(k', a), List.mem_cons_self _ _, rfl, rfl, Or.inl rfl⟩
      · rw [hms] at h'
        simp only [List.isEmpty_cons, Bool.false_eq_true, if_false] at h'
        obtain ⟨rb, hrb, hrow⟩ := List.mem_map.mp h'
        have hrbf : rb ∈ R.filter (fun rb => rb.1 = some k') := by rw [hms]; exact hrb
        have hrbR := List.mem_filter.mp hrbf
        subst hrow
        exact ⟨(k', a), List.mem_cons_self _ _, rfl, rfl,
          Or.inr ⟨rb, hrbR.1, by simpa using hrbR.2, rfl⟩⟩
    · obtain ⟨ka, hka, h1, h2, h3⟩ := mem_mergeLeft R L row h'
      exact ⟨ka, List.mem_cons_of_mem _ hka, h1, h2, h3⟩

/-! ## Helper lemmas about `seriesAt` and `range'` -/

theorem seriesAt_range' :
    ∀ (n s i : Nat) (vals : List α), s ≤ i → i < s + n →
      seriesAt (List.range' s n) vals i = vals.get? (i - s)
  | 0, s, i, _, h1, h2 => by omega
  | n + 1, s, i, vals, h1, h2 => by
    rw [List.range'_succ]
    cases vals with
    | nil => simp [seriesAt]
    | cons v vs =>
      by_cases hi : i = s
      · subst hi
        simp [seriesAt, Nat.sub_self]
      · show (if i = s then some v else seriesAt (List.range' (s + 1) n) vs i) = _
        rw [if_neg hi, seriesAt_range' n (s + 1) i vs (by omega) (by omega)]
        have hsub : i - s = (i - (s + 1)) + 1 := by omega
        rw [hsub]
        rfl

theorem range'_get? : ∀ (n s m : Nat), m < n → (List.range' s n).get? m = some (s + m)
  | 0, _, m, h => by omega
  | n + 1, s, m, h => by
    rw [List.range'_succ]
    cases m with
    | zero => rfl
    | succ m' =>
      show (List.range' (s + 1) n).get? m' = some (s + (m' + 1))
      rw [range'_get? n (s + 1) m' (by omega)]
      congr 1
      omega

/-! ## Helper lemmas about `optionMapList` -/

theorem optionMapList_isSome {f : α → Option γ} :
    ∀ (l : List α) (res : List γ), optionMapList f l = some res → ∀ a ∈ l, (f a).isSome
  | [], _, _, a, ha => by simp at ha
  | b :: l, res, h, a, ha => by
    rcases hb : f b with _ | v
    · rw [optionMapList, hb] at h
      simp at h
    · rcases hl : optionMapList f l with _ | vs
      · rw [optionMapList, hb, hl] at h
        simp at h
      · rcases List.mem_cons.mp ha with ha | ha
        · subst ha
          simp [hb]
        · exact optionMapList_isSome l vs hl a ha

/-! ## The spec-worded `clean_bwv` agrees with the code -/

theorem cleanBwvParts_eq_spec (l : List Char) : cleanBwvParts l = specCleanBwvParts l := by
  unfold cleanBwvParts specCleanBwvParts
  have hsp : splitOnP (fun c => c == '.') (stripL specStripSet l) =
      splitOnP isDot (stripL isParenSpace l) := rfl
  rw [hsp]
  by_cases hlen : 1 < (splitOnP isDot (stripL isParenSpace l)).length
  · rw [if_pos hlen, if_pos hlen]
    have hne : splitOnP isDot (stripL isParenSpace l) ≠ [] := splitOnP_ne_nil _ _
    rcases hrev : (splitOnP isDot (stripL isParenSpace l)).reverse with _ | ⟨lastP, revInit⟩
    · exact absurd (List.reverse_eq_nil_iff.mp hrev) hne
    · have hpeq : splitOnP isDot (stripL isParenSpace l) = revInit.reverse ++ [lastP] := by
        have h2 := congrArg List.reverse hrev
        rw [List.reverse_reverse] at h2
        rw [h2, List.reverse_cons]
      have h1 : (splitOnP isDot (stripL isParenSpace l)).getLast? = some lastP := by
        rw [hpeq]
        exact List.getLast?_concat _
      have h2 : (splitOnP isDot (stripL isParenSpace l)).dropLast = revInit.reverse := by
        rw [hpeq]
        exact List.dropLast_concat
      rw [h1, h2]
      simp [List.reverse_cons]
  · rw [if_neg hlen, if_neg hlen]

theorem cleanBwvL_eq_spec (l : List Char) : cleanBwvL l = specCleanBwvL l := by
  unfold cleanBwvL specCleanBwvL
  rw [cleanBwvParts_eq_spec]

theorem cleanBwvParts_of_getLast (a lastP : List Char)
    (hlen : 1 < (splitOnP isDot (stripL isParenSpace a)).length)
    (hgl : (splitOnP isDot (stripL isParenSpace a)).getLast? = some lastP) :
    cleanBwvParts a = (pyIntL lastP).map
      (fun n => (splitOnP isDot (stripL isParenSpace a)).dropLast ++ [intReprL n]) := by
  unfold cleanBwvParts
  rw [if_pos hlen, hgl]

theorem makeBwvCellL_cons (cell : Option (List Char)) (a : List Char) (rest : List (List Char))
    (halt : bwvAlternatesL (stripL isParenSpace (cell.getD [])) = a :: rest) :
    makeBwvCellL cell = (cleanBwvL a).map some := by
  unfold makeBwvCellL
  rw [halt]

/-! ## Shape of the values produced by `clean_bwv` (for C6) -/

theorem isParenSpace_eq_false (c : Char) (h : isParenSpace c = false) :
    c ≠ '(' ∧ c ≠ ')' ∧ c ≠ ' ' := by
  unfold isParenSpace at h
  simp at h
  exact ⟨h.1.1, h.1.2, h.2⟩

theorem digit_not_paren (c : Char) (h : c.isDigit = true) :
    c ≠ '(' ∧ c ≠ ')' ∧ c ≠ ' ' := by
  refine ⟨?_, ?_, ?_⟩ <;> rintro rfl <;> exact absurd h (by decide)

theorem intReprL_no_dot (n : Int) : ∀ c ∈ intReprL n, isDot c = false := by
  intro c hc
  rcases intReprL_chars n c hc with h | h
  · subst h
    decide
  · by_cases hcd : c = '.'
    · subst hcd
      exact absurd h (by decide)
    · simp [isDot, hcd]

theorem joinDotL_cons_cons (x y : List Char) (ys : List (List Char)) :
    joinDotL (x :: y :: ys) = x ++ '.' :: joinDotL (y :: ys) := rfl

theorem joinDotL_dot_mem (x y : List Char) (ys : List (List Char)) :
    '.' ∈ joinDotL (x :: y :: ys) := by
  rw [joinDotL_cons_cons]
  exact List.mem_append.mpr (Or.inr (List.mem_cons_self _ _))

/-- The shape of every value `clean_bwv` returns on a `'='`-free input:
no `'='`, no parenthesis or space at either end, and a final
`'.'`-component without a leading zero. -/
theorem cleanBwvL_shape (a out : List Char) (h : cleanBwvL a = some out)
    (hne : '=' ∉ a) :
    ('=' ∉ out) ∧
    (∀ c, out.head? = some c → (c ≠ '(' ∧ c ≠ ')' ∧ c ≠ ' ')) ∧
    (∀ c, out.getLast? = some c → (c ≠ '(' ∧ c ≠ ')' ∧ c ≠ ' ')) ∧
    (∀ t, 1 < (splitOnP isDot out).length → (splitOnP isDot out).getLast? = some t →
      t.head? = some '0' → t = ['0']) := by
  unfold cleanBwvL at h
  rcases hparts : cleanBwvParts a with _ | ps
  · rw [hparts] at h
    simp at h
  · rw [hparts] at h
    simp only [Option.map_some'] at h
    have h' : (if joinDotL ps = ("145a").data then ("145-a").data else joinDotL ps) = out :=
      Option.some.inj h
    unfold cleanBwvParts at hparts
    by_cases hlen : 1 < (splitOnP isDot (stripL isParenSpace a)).length
    · -- more than one segment: the last one is replaced by `str(int(last))`
      rw [if_pos hlen] at hparts
      rcases hgl : (splitOnP isDot (stripL isParenSpace a)).getLast? with _ | lastP
      · rw [hgl] at hparts
        simp at hparts
      · rw [hgl] at hparts
        have hparts2 : Option.map
            (fun n => (splitOnP isDot (stripL isParenSpace a)).dropLast ++ [intReprL n])
            (pyIntL lastP) = some ps := hparts
        rcases hpy : pyIntL lastP with _ | n
        · rw [hpy] at hparts2
          simp at hparts2
        · rw [hpy] at hparts2
          simp only [Option.map_some'] at hparts2
          have hps : ps = (splitOnP isDot (stripL isParenSpace a)).dropLast ++ [intReprL n] :=
            (Option.some.inj hparts2).symm
          obtain ⟨p0, parts', hp0⟩ :=
            List.exists_cons_of_ne_nil (splitOnP_ne_nil isDot (stripL isParenSpace a))
          obtain ⟨p1, tl, hp1⟩ := List.exists_cons_of_ne_nil
            (l := parts') (by
              intro h0
              rw [hp0, h0] at hlen
              simp at hlen)
          have hpp : splitOnP isDot (stripL isParenSpace a) = p0 :: p1 :: tl := by
            rw [hp0, hp1]
          have hdl : (splitOnP isDot (stripL isParenSpace a)).dropLast =
              p0 :: (p1 :: tl).dropLast := by
            rw [hpp]
            rfl
          have hps' : ps = p0 :: ((p1 :: tl).dropLast ++ [intReprL n]) := by
            rw [hps, hdl, List.cons_append]
          obtain ⟨y, ys, hys⟩ : ∃ y ys, (p1 :: tl).dropLast ++ [intReprL n] = y :: ys := by
            rcases hys : (p1 :: tl).dropLast ++ [intReprL n] with _ | ⟨y, ys⟩
            · simp at hys
            · exact ⟨y, ys, rfl⟩
          have hcc : ps = p0 :: y :: ys := by rw [hps', hys]
          have hdot : '.' ∈ joinDotL ps := by
            rw [hcc]
            exact joinDotL_dot_mem p0 y ys
          have hov : joinDotL ps ≠ ("145a").data := by
            intro he
            rw [he] at hdot
            exact absurd hdot (by decide)
          rw [if_neg hov] at h'
          subst h'
          have hps_free : ∀ x ∈ ps, ∀ c ∈ x, isDot c = false := by
            rw [hps]
            intro x hx c hc
            rcases List.mem_append.mp hx with hx | hx
            · exact splitOnP_sep_false isDot (stripL isParenSpace a) x
                (List.mem_of_mem_dropLast hx) c hc
            · rw [List.mem_singleton.mp hx] at hc
              exact intReprL_no_dot n c hc
          have hps_ne : ps ≠ [] := by
            rw [hcc]
            simp
          have hsplit_out : splitOnP isDot (joinDotL ps) = ps :=
            joinDotL_join_split ps hps_ne hps_free
          refine ⟨?_, ?_, ?_, ?_⟩
          · -- no '='
            intro hin
            rcases joinDotL_mem ps '=' hin with h0 | ⟨x, hx, hcx⟩
            · exact absurd h0 (by decide)
            · rw [hps] at hx
              rcases List.mem_append.mp hx with hx | hx
              · exact hne (stripL_subset _ _ _
                  (splitOnP_subset isDot (stripL isParenSpace a) x
                    (List.mem_of_mem_dropLast hx) '=' hcx))
              · rw [List.mem_singleton.mp hx] at hcx
                rcases intReprL_chars n '=' hcx with h0 | h0
                · exact absurd h0 (by decide)
                · exact absurd h0 (by decide)
          · -- head is not a parenthesis or space
            intro c hc
            rw [hcc, joinDotL_cons_cons] at hc
            cases hd0 : p0 with
            | nil =>
              rw [hd0] at hc
              simp at hc
              subst hc
              decide
            | cons c0 cs =>
              rw [hd0] at hc
              simp at hc
              have hc0 : c0 = c := hc
              subst hc0
              have hhd : (splitOnP isDot (stripL isParenSpace a)).headD [] =
                  (stripL isParenSpace a).takeWhile (fun c => !isDot c) :=
                splitOnP_headD isDot (stripL isParenSpace a)
              rw [hpp] at hhd
              simp only [List.headD_cons] at hhd
              have hhead : ((stripL isParenSpace a).takeWhile (fun c => !isDot c)).head? =
                  some c0 := by
                rw [← hhd, hd0]
                rfl
              have hrh : (stripL isParenSpace a).head? = some c0 :=
                takeWhile_head? _ _ c0 hhead
              exact isParenSpace_eq_false c0 (stripL_head?_false isParenSpace a c0 hrh)
          · -- last is not a parenthesis or space
            intro c hc
            rw [hps, joinDotL_getLast? _ _ (intReprL_ne_nil n)] at hc
            have hcmem : c ∈ intReprL n := getLast?_mem' _ c hc
            rcases intReprL_chars n c hcmem with h0 | h0
            · subst h0
              decide
            · exact digit_not_paren c h0
          · -- final '.'-component has no leading zero
            intro t hlt hglt hht
            rw [hsplit_out] at hglt
            have hgl2 : ps.getLast? = some (intReprL n) := by
              rw [hps]
              exact List.getLast?_concat _
            have ht : t = intReprL n := by
              rw [hglt] at hgl2
              exact Option.some.inj hgl2
            rcases htc : t with _ | ⟨t0, tt⟩
            · rw [htc] at hht
              simp at hht
            · rw [htc] at hht
              simp at hht
              subst hht
              rw [htc] at ht
              have := intReprL_zero_head n tt ht.symm
              rw [this]
    · -- a single segment: the stripped string is returned (up to the override)
      rw [if_neg hlen] at hparts
      have hps : ps = splitOnP isDot (stripL isParenSpace a) := (Option.some.inj hparts).symm
      obtain ⟨x, hx⟩ : ∃ x, splitOnP isDot (stripL isParenSpace a) = [x] := by
        apply List.length_eq_one.mp
        have hne0 := splitOnP_ne_nil isDot (stripL isParenSpace a)
        have hpos : 0 < (splitOnP isDot (stripL isParenSpace a)).length :=
          List.length_pos.mpr hne0
        omega
      have hxr : x = stripL isParenSpace a := splitOnP_single isDot _ x hx
      subst hxr
      have hpsx : ps = [stripL isParenSpace a] := by rw [hps, hx]
      rw [hpsx] at h'
      have hjoin : joinDotL [stripL isParenSpace a] = stripL isParenSpace a := rfl
      rw [hjoin] at h'
      by_cases hov : stripL isParenSpace a = ("145a").data
      · rw [if_pos hov] at h'
        subst h'
        refine ⟨by decide, ?_, ?_, ?_⟩
        · intro c hc
          have h1 : (("145-a").data).head? = some '1' := rfl
          rw [h1] at hc
          have : c = '1' := (Option.some.inj hc).symm
          subst this
          decide
        · intro c hc
          have h1 : (("145-a").data).getLast? = some 'a' := by decide
          rw [h1] at hc
          have : c = 'a' := (Option.some.inj hc).symm
          subst this
          decide
        · intro t hlt _ _
          have h1 : (splitOnP isDot (("145-a").data)).length = 1 := by decide
          omega
      · rw [if_neg hov] at h'
        subst h'
        refine ⟨?_, ?_, ?_, ?_⟩
        · intro hin
          exact hne (stripL_subset isParenSpace a '=' hin)
        · intro c hc
          exact isParenSpace_eq_false c (stripL_head?_false isParenSpace a c hc)
        · intro c hc
          exact isParenSpace_eq_false c (stripL_getLast?_false isParenSpace a c hc)
        · intro t hlt _ _
          rw [hx] at hlt
          simp at hlt

/-! ## Claim theorems -/

/-- Claim C2: `clean_bwv` first strips surrounding parentheses and
whitespace, then, when splitting on `'.'` yields more than one segment,
reinterprets the final segment as a plain integer (dropping leading
zeros) and rejoins with `'.'`, and finally applies the single literal
override mapping `"145a"` to `"145-a"`; in particular
`clean_bwv("(145a)") = "145-a"` and `clean_bwv("12.03") = "12.3"`. -/
theorem c2_clean_bwv_contract :
    (∀ s : String, clean_bwv s = spec_clean_bwv s) ∧
    clean_bwv ("(145a)") = some ("145-a") ∧
    clean_bwv ("12.03") = some ("12.3") := by
  refine ⟨fun s => ?_, by decide, by decide⟩
  unfold clean_bwv spec_clean_bwv
  rw [cleanBwvL_eq_spec]

/-- Claim C3, counterexample: on the cell `"(=1)"` the code first strips
the surrounding `'('`/`')'` (leaving `"=1"`, whose only non-empty
`'='`-segment is `"1"`), while the claimed procedure — splitting the raw
cell on `'='` — keeps `"("` as the first non-empty segment and cleans it
to `""`; the two results differ. -/
theorem c3_make_bwv_cex :
    make_bwv_cell (some ("(=1)")) = some (some ("1")) ∧
    claim_bwv_cell ("(=1)") = some (some ("")) := ⟨by decide, by decide⟩

/-- Claim C3 (amended): `make_bwv_column` first replaces a missing cell
by the empty string and strips `'('`, `')'`, `' '` from both ends of the
cell, then splits on `'='`, whitespace-strips each segment and drops the
segments that become empty, keeps the first remaining segment and
applies `clean_bwv` to it; a cell with no remaining segment yields
absent; in particular `" (1.2=3.4) "` yields `"1.2"` and `""` yields
absent. -/
theorem c3_make_bwv_contract :
    (∀ cell : Option String, make_bwv_cell cell = amended_bwv_cell cell) ∧
    make_bwv_cell (some (" (1.2=3.4) ")) = some (some ("1.2")) ∧
    make_bwv_cell (some ("")) = some none := by
  refine ⟨fun cell => rfl, by decide, by decide⟩

/-- Claim C4: `make_integer_column` splits each cell on `'.'` or `'='`
and parses the first resulting segment as an integer; in particular
`"7=9"` yields `7` and `"12.3"` yields `12`. -/
theorem c4_integer_cell_contract :
    (∀ s : String, make_integer_cell (some s) = spec_integer_cell s) ∧
    make_integer_cell (some ("7=9")) = some 7 ∧
    make_integer_cell (some ("12.3")) = some 12 := by
  refine ⟨fun s => ?_, by decide, by decide⟩
  show pyIntL ((splitOnP isDotEq s.data).headD []) =
    pyIntL (s.data.takeWhile (fun c => !isDotEq c))
  rw [splitOnP_headD]

/-- Claim C5: in the final riemenschneider table (indexed by the
reference numbers 1..371), for every index `i ≠ 150` the `krn_file`
value is `"chor" ++ zfill 3 (str i) ++ ".krn"`, the value at 150 is
absent, and for every `i` the `xml_file` value is
`zfill 3 (str i) ++ "/short_score.mxl"`. -/
theorem c5_filename_derivation (i : Nat) (h1 : 1 ≤ i) (h2 : i ≤ 371) :
    (i ≠ 150 → seriesAt riemIndex krn_files i =
      some (some (("chor" ++ pyZfill 3 (natRepr i)) ++ ".krn"))) ∧
    (i = 150 → seriesAt riemIndex krn_files i = some none) ∧
    seriesAt riemIndex xml_files i =
      some (pyZfill 3 (natRepr i) ++ "/short_score.mxl") := by
  have hk : seriesAt riemIndex krn_files i = krn_files.get? (i - 1) := by
    unfold riemIndex krn_files
    exact seriesAt_range' 371 1 i _ h1 (by omega)
  have hx : seriesAt riemIndex xml_files i = xml_files.get? (i - 1) := by
    unfold riemIndex xml_files
    exact seriesAt_range' 371 1 i _ h1 (by omega)
  have hr : riemIndex.get? (i - 1) = some i := by
    unfold riemIndex
    rw [range'_get? 371 1 (i - 1) (by omega)]
    congr 1
    omega
  have hkm : krn_files.get? (i - 1) =
      some (if i ≠ 150 then some (("chor" ++ pyZfill 3 (natRepr i)) ++ ".krn") else none) := by
    unfold krn_files
    rw [List.get?_map, hr]
    rfl
  have hxm : xml_files.get? (i - 1) =
      some (pyZfill 3 (natRepr i) ++ "/short_score.mxl") := by
    unfold xml_files
    rw [List.get?_map, hr]
    rfl
  refine ⟨fun hne => ?_, fun heq => ?_, ?_⟩
  · rw [hk, hkm, if_pos hne]
  · rw [hk, hkm, if_neg (by simpa using heq)]
  · rw [hx, hxm]

/-- Witness for C5 at the concrete index 7. -/
theorem c5_filename_derivation_witness :
    (1 ≤ 7 ∧ 7 ≤ 371) ∧
    seriesAt riemIndex krn_files 7 =
      some (some (("chor" ++ pyZfill 3 (natRepr 7)) ++ ".krn")) :=
  ⟨by decide, (c5_filename_derivation 7 (by decide) (by decide)).1 (by decide)⟩

/-- Claim C7: when the HTML source contains no table with the structural
selector `id="sortable"`, `get_table` fails (`pd.read_html` raises
`ValueError`) and the run aborts with no output file written — the
script's first write happens only after `get_table` has returned. -/
theorem c7_missing_table_aborts (html : List (String × HtmlTable))
    (rest : HtmlTable → List String)
    (h : ∀ t ∈ html, t.1 ≠ "sortable") :
    runScript html rest = ([], some PipelineError.noTablesFound) := by
  have hmt : matchingTables html ("sortable") = [] := by
    unfold matchingTables
    have hf : html.filter (fun t => t.1 == "sortable") = [] := by
      rw [List.filter_eq_nil_iff]
      intro a ha
      simpa using h a ha
    rw [hf, List.map_nil]
  unfold runScript get_table read_html
  rw [hmt]

/-- Witness for C7 on a one-table markup whose id is not the selector. -/
theorem c7_missing_table_aborts_witness :
    (∀ t ∈ [(("other" : String), ([] : HtmlTable))], t.1 ≠ "sortable") ∧
    runScript [(("other" : String), ([] : HtmlTable))] (fun _ => outputFiles) =
      ([], some PipelineError.noTablesFound) :=
  ⟨by decide, c7_missing_table_aborts _ _ (by decide)⟩

/-- Claim C8: extracting the (title, bwv1, bwv2, mode) fields with the
fixed pattern never raises: the extraction is total (one output row per
cell), a cell that does not match yields the all-absent row, and an
optional group that does not match yields absent for its fields while
the run continues — shown on cells with no match, a match without the
small-group, and a full match. -/
theorem c8_extract_never_raises :
    (∀ col : List (Option String), (extract_info_column col).length = col.length) ∧
    (∀ s : String, searchInfo s.data = none →
      extract_info_cell (some s) = (none, none, none, none)) ∧
    extract_info_cell (some ("<link>Ach Gott</link>")) =
      (some ("Ach Gott"), none, none, none) ∧
    extract_info_cell (some ("no link marker here")) = (none, none, none, none) ∧
    extract_info_cell (some ("<link>T</link>, <small>BWV 12/3 x</small> (min)")) =
      (some ("T"), some ("12"), some ("3"), some ("min")) ∧
    extract_info_cell none = (none, none, none, none) := by
  refine ⟨fun col => List.length_map col extract_info_cell, fun s h => ?_,
    by rfl, by rfl, by rfl, rfl⟩
  show (searchInfo s.data).getD (none, none, none, none) = (none, none, none, none)
  rw [h]
  rfl

/-- Witness for C8 on a non-matching cell. -/
theorem c8_extract_never_raises_witness :
    searchInfo (String.data ("zzz")) = none ∧
    extract_info_cell (some ("zzz")) = (none, none, none, none) :=
  ⟨by rfl, c8_extract_never_raises.2.1 ("zzz") (by rfl)⟩

/-- Claim C9, counterexample: the claim quantifies over the raw input's
`'.'`-split, but `clean_bwv` strips `'('`, `')'`, `' '` before
splitting.  The input `"1.03)"` splits into more than one segment whose
final segment `"03)"` is not an integer literal, yet `clean_bwv` does
not raise: it returns `"1.3"`. -/
theorem c9_clean_bwv_cex :
    1 < (pySplitDot ("1.03)")).length ∧
    pyInt (((pySplitDot ("1.03)")).getLast?).getD ("")) = none ∧
    clean_bwv ("1.03)") = some ("1.3") := ⟨by decide, by decide, by decide⟩

/-- Claim C9 (amended): `clean_bwv` is not total: for any input string
for which, after stripping surrounding `'('`, `')'`, `' '`, the split on
`'.'` yields more than one segment whose final segment is not a valid
integer literal (for example `"1.a"`), `clean_bwv` raises — and
`make_bwv_column` raises on a cell whose first remaining
`'='`-alternate (after the cell preprocessing) makes `clean_bwv` raise,
instead of yielding an absent value. -/
theorem c9_clean_bwv_partiality :
    (∀ s : String, 1 < (pySplitDot (pyStripParen s)).length →
      pyInt (((pySplitDot (pyStripParen s)).getLast?).getD ("")) = none →
      clean_bwv s = none) ∧
    (∀ (cell : String) (a : List Char) (rest : List (List Char)),
      bwvAlternatesL (stripL isParenSpace cell.data) = a :: rest →
      cleanBwvL a = none →
      make_bwv_cell (some cell) = none) ∧
    clean_bwv ("1.a") = none ∧ make_bwv_cell (some ("1.a")) = none := by
  refine ⟨fun s hlen hlast => ?_, fun cell a rest halt hclean => ?_, by decide, by decide⟩
  · have hlen' : 1 < (splitOnP isDot (stripL isParenSpace s.data)).length := by
      have := hlen
      unfold pySplitDot pyStripParen at this
      simpa [List.length_map] using this
    rcases hgl : (splitOnP isDot (stripL isParenSpace s.data)).getLast? with _ | lastP
    · exact absurd (List.getLast?_eq_none_iff.mp hgl) (splitOnP_ne_nil _ _)
    · have hpy : pyIntL lastP = none := by
        have := hlast
        unfold pySplitDot pyStripParen pyInt at this
        rw [List.getLast?_map, hgl] at this
        simpa using this
      unfold clean_bwv cleanBwvL
      rw [cleanBwvParts_of_getLast s.data lastP hlen' hgl, hpy]
      rfl
  · unfold make_bwv_cell
    rw [show (some cell).map String.data = some cell.data from rfl,
      makeBwvCellL_cons (some cell.data) a rest halt, hclean]
    rfl

/-- Witness for the amended C9 at the concrete input `"1.a"`. -/
theorem c9_clean_bwv_partiality_witness :
    (1 < (pySplitDot (pyStripParen ("1.a"))).length ∧
      pyInt (((pySplitDot (pyStripParen ("1.a"))).getLast?).getD ("")) = none) ∧
    clean_bwv ("1.a") = none :=
  ⟨⟨by decide, by decide⟩, c9_clean_bwv_partiality.1 ("1.a") (by decide) (by decide)⟩

/-- Claim C10: `make_integer_column` raises on a series containing a
missing cell (the missing value is not propagated to an absent
integer), so deriving the `CPE` column requires every `B` cell of the
rows kept by the `R`-not-missing filter to be a non-missing string. -/
theorem c10_integer_column_missing_cell :
    make_integer_cell none = none ∧
    (∀ col : List (Option String), none ∈ col → make_integer_column col = none) ∧
    (∀ (t : List (Option String × Option String)) (l : List Int),
      cpeColumn t = some l → ∀ r ∈ keptRows t, r.2.isSome) := by
  refine ⟨rfl, fun col hmem => ?_, fun t l hcpe r hr => ?_⟩
  · rcases h : make_integer_column col with _ | res
    · rfl
    · have := optionMapList_isSome col res h none hmem
      simp [make_integer_cell, makeIntegerCellL] at this
  · have := optionMapList_isSome _ l hcpe r.2 (List.mem_map.mpr ⟨r, hr, rfl⟩)
    rcases hb : r.2 with _ | b
    · rw [hb] at this
      simp [make_integer_cell, makeIntegerCellL] at this
    · simp

/-- Witness for C10 at a one-row table. -/
theorem c10_integer_column_missing_cell_witness :
    (cpeColumn [(some ("1"), some ("7"))] = some [7] ∧
      ((some ("1"), some ("7")) : Option String × Option String) ∈
        keptRows [(some ("1"), some ("7"))]) ∧
    ((some ("1"), some ("7")) : Option String × Option String).2.isSome :=
  ⟨⟨by decide, by decide⟩,
    c10_integer_column_missing_cell.2.2 [(some ("1"), some ("7"))] [7]
      (by decide) (some ("1"), some ("7")) (by decide)⟩

/-- Claim C1: with the shared key unique within each input, every key
value present in either the reference table or the wiki table occurs in
exactly one row of the outer-join output, and a row whose key occurs in
only one input has absent values in every column exclusive to the other
input. -/
theorem c1_outer_join_keys (L : List (Int × α)) (R : List (Option Int × β))
    (hL : (L.map Prod.fst).Nodup) (hR : (R.filterMap Prod.fst).Nodup) (k : Int)
    (hk : k ∈ L.map Prod.fst ∨ some k ∈ R.map Prod.fst) :
    keyCount (mergeOuter L R) k = 1 ∧
    ∀ row ∈ mergeOuter L R, row.1 = some k →
      (some k ∉ R.map Prod.fst → row.2.2 = none) ∧
      (k ∉ L.map Prod.fst → row.2.1 = none) := by
  have hR1 : ∀ j : Int, R.countP (fun rb => rb.1 = some j) ≤ 1 := countP_key_le_one R hR
  constructor
  · unfold keyCount mergeOuter
    rw [List.countP_append, keyCount_mergeLeft R hR1 k L, keyCount_unmatched L R k]
    by_cases hkL : k ∈ L.map Prod.fst
    · rw [if_pos hkL]
      have hle := List.nodup_iff_count_le_one.mp hL k
      have hpos := List.count_pos_iff.mpr hkL
      omega
    · rw [if_neg hkL]
      have h0 : (L.map Prod.fst).count k = 0 := List.count_eq_zero.mpr hkL
      rw [h0]
      rcases hk with hk | hk
      · exact absurd hk hkL
      · rw [← count_filterMap_fst]
        have hle := List.nodup_iff_count_le_one.mp hR k
        have hpos : 0 < (R.filterMap Prod.fst).count k := by
          rw [List.count_pos_iff]
          obtain ⟨rb, hrb, hrbk⟩ := List.mem_map.mp hk
          exact List.mem_filterMap.mpr ⟨rb, hrb, hrbk⟩
        omega
  · intro row hrow hkey
    unfold mergeOuter at hrow
    rw [List.mem_append] at hrow
    rcases hrow with hrow | hrow
    · obtain ⟨ka, hka, h1, h2, h3⟩ := mem_mergeLeft R L row hrow
      have hkak : ka.1 = k := by
        rw [hkey] at h1
        exact (Option.some.inj h1).symm
      constructor
      · intro hnotR
        rcases h3 with h3 | ⟨rb, hrb, hrbk, hrow2⟩
        · exact h3
        · exact absurd (List.mem_map.mpr ⟨rb, hrb, by rw [hrbk, hkak]⟩) hnotR
      · intro hnotL
        exact absurd (List.mem_map.mpr ⟨ka, hka, hkak⟩) hnotL
    · obtain ⟨rb, hrb, hrow2⟩ := List.mem_map.mp hrow
      subst hrow2
      refine ⟨fun hnotR => ?_, fun _ => rfl⟩
      have hrbR := (List.mem_filter.mp hrb).1
      exact absurd (List.mem_map.mpr ⟨rb, hrbR, hkey⟩) hnotR

/-- Witness for C1 on concrete one-row tables with distinct keys. -/
theorem c1_outer_join_keys_witness :
    (([((1 : Int), (10 : Nat))].map Prod.fst).Nodup ∧
      (([((some (2 : Int)), (20 : Nat))] : List (Option Int × Nat)).filterMap Prod.fst).Nodup ∧
      ((1 : Int) ∈ [((1 : Int), (10 : Nat))].map Prod.fst ∨
        some (1 : Int) ∈ ([((some (2 : Int)), (20 : Nat))] : List (Option Int × Nat)).map Prod.fst)) ∧
    keyCount (mergeOuter [((1 : Int), (10 : Nat))]
      ([((some (2 : Int)), (20 : Nat))] : List (Option Int × Nat))) 1 = 1 :=
  ⟨⟨by decide, by decide, by decide⟩,
    (c1_outer_join_keys [((1 : Int), (10 : Nat))] [((some (2 : Int)), (20 : Nat))]
      (by decide) (by decide) 1 (by decide)).1⟩

/-- Claim C6, counterexample: the cell `"a(b"` survives the cleaning
pipeline unchanged, so the produced `bwv` value contains a parenthesis
character, contradicting "contains no parenthesis character" — only
parentheses at the ends of the value are impossible. -/
theorem c6_bwv_invariant_cex :
    make_bwv_cell (some ("a(b")) = some (some ("a(b")) ∧ '(' ∈ ("a(b").data :=
  ⟨by decide, by decide⟩

/-- Claim C6 (amended): any non-absent `bwv` value produced by the
cleaning pipeline contains no `'='` character (so in particular no
trailing `'='`), neither begins nor ends with a parenthesis or space
(an interior parenthesis of the cell can survive), and when the value
has more than one `'.'`-separated component, its final component has no
leading zero. -/
theorem c6_bwv_invariant (cell : Option String) (s : String)
    (h : make_bwv_cell cell = some (some s)) :
    ('=' ∉ s.data) ∧
    (∀ c, s.data.head? = some c → (c ≠ '(' ∧ c ≠ ')' ∧ c ≠ ' ')) ∧
    (∀ c, s.data.getLast? = some c → (c ≠ '(' ∧ c ≠ ')' ∧ c ≠ ' ')) ∧
    (∀ t, 1 < (pySplitDot s).length → (pySplitDot s).getLast? = some t →
      t.data.head? = some '0' → t = ("0")) := by
  unfold make_bwv_cell at h
  rcases hmc : makeBwvCellL (cell.map String.data) with _ | os
  · rw [hmc] at h
    simp at h
  · rw [hmc] at h
    simp only [Option.map_some'] at h
    have h2 : Option.map String.mk os = some s := Option.some.inj h
    rcases os with _ | ls
    · simp at h2
    · simp only [Option.map_some'] at h2
      have hs : String.mk ls = s := Option.some.inj h2
      rcases halt : bwvAlternatesL (stripL isParenSpace ((cell.map String.data).getD []))
        with _ | ⟨a, rest⟩
      · unfold makeBwvCellL at hmc
        rw [halt] at hmc
        simp at hmc
      · rw [makeBwvCellL_cons (cell.map String.data) a rest halt] at hmc
        rcases hcl : cleanBwvL a with _ | out
        · rw [hcl] at hmc
          simp at hmc
        · rw [hcl] at hmc
          simp only [Option.map_some'] at hmc
          have hout : out = ls := Option.some.inj (Option.some.inj hmc)
          have hne : '=' ∉ a := by
            have hmem : a ∈ bwvAlternatesL (stripL isParenSpace
                ((cell.map String.data).getD [])) := by
              rw [halt]
              exact List.mem_cons_self _ _
            unfold bwvAlternatesL at hmem
            have hmem2 := (List.mem_filter.mp hmem).1
            obtain ⟨x, hxmem, hxa⟩ := List.mem_map.mp hmem2
            intro hin
            have hinx : '=' ∈ x := stripL_subset isPyWs x '=' (by rw [hxa]; exact hin)
            have := splitOnP_sep_false (fun c => c == '=') _ x hxmem '=' hinx
            simp at this
          have main := cleanBwvL_shape a out hcl hne
          have heq : s.data = out := by
            rw [← hs, hout]
          refine ⟨?_, ?_, ?_, ?_⟩
          · rw [heq]
            exact main.1
          · intro c hc
            rw [heq] at hc
            exact main.2.1 c hc
          · intro c hc
            rw [heq] at hc
            exact main.2.2.1 c hc
          · intro t h1 h2 h3
            unfold pySplitDot at h1 h2
            rw [heq] at h1 h2
            rw [List.length_map] at h1
            rw [List.getLast?_map] at h2
            rcases hgl : (splitOnP isDot out).getLast? with _ | tl
            · rw [hgl] at h2
              simp at h2
            · rw [hgl] at h2
              simp only [Option.map_some'] at h2
              have htl : String.mk tl = t := Option.some.inj h2
              have h3' : tl.head? = some '0' := by
                rw [← htl] at h3
                exact h3
              have := main.2.2.2 tl h1 hgl h3'
              rw [← htl, this]

/-- Witness for the amended C6 on the cell `"12.03"`. -/
theorem c6_bwv_invariant_witness :
    make_bwv_cell (some ("12.03")) = some (some ("12.3")) ∧ '=' ∉ ("12.3").data :=
  ⟨by decide, (c6_bwv_invariant (some ("12.03")) ("12.3") (by decide)).1⟩

end BachChorales
